import Mathlib

/-!
# Verification of the wishyor pub/sub orchestration core

Shallow embedding of the broker-agnostic orchestration layer:
the priority message queue with dead-letter store
(`src/universal/message.queue.ts`), the subscription registry and its
filter matcher (`src/universal/subscription.manager.ts`), the
handler/middleware registry (`src/universal/message.handler.ts`), the
performance monitor (`src/universal/performance.monitor.ts`), the
message manager's drain loop (`src/universal/message.manager.ts`), the
retry handler (`src/handlers/retry.handler.ts`) and the circuit breaker
(`src/utils/circuit.breaker.ts`, modelled from the specification since
its source is not part of the repository snapshot).

JavaScript machine details are embedded as follows: JS values occurring
in payloads, metadata and filters become the inductive `JSVal`
(numbers as `Int`; the claims under study involve no fractional values);
JS truthiness becomes `JSVal.truthy`; `Map`s become association lists;
`async` methods that cannot reject become total functions; methods whose
observable effect is a thrown error, a scheduled retry or a console log
return that observation as data.
-/

/-- Message priority levels, the values of the TS union type
`MessagePriority` (`'low' | 'normal' | 'high' | 'critical'`). -/
inductive Priority where
  | low
  | normal
  | high
  | critical
deriving DecidableEq, Repr

/-- JavaScript runtime values as they occur in message payloads,
metadata and subscription filters.  Numbers are embedded as `Int`
(the claims involve integral values only). -/
inductive JSVal where
  | str (s : String)
  | num (n : Int)
  | bool (b : Bool)
  | null
  | undef
deriving DecidableEq, Repr

namespace JSVal

/-- JavaScript truthiness of a value: `0`, `false`, `""`, `null` and
`undefined` are falsy, everything else is truthy. -/
def truthy : JSVal → Bool
  | .str s => !(s == "")
  | .num n => !(n == 0)
  | .bool b => b
  | .null => false
  | .undef => false

/-- JavaScript `String(v)` coercion. -/
def jsToString : JSVal → String
  | .str s => s
  | .num n => toString n
  | .bool b => if b then "true" else "false"
  | .null => "null"
  | .undef => "undefined"

end JSVal

/-- The `IMessage` record from `src/types`: `id`, `type`, `payload`,
`timestamp`, optional `priority` and `metadata`.  `payload` and
`metadata` are embedded as association lists of JS values; object
property access `obj?.[key]` on an absent key yields `JSVal.undef`.
The `timestamp` and broker-specific optional fields play no role in any
claim and are omitted. -/
structure IMessage where
  id : String
  type : String
  payload : List (String × JSVal)
  metadata : List (String × JSVal)
  priority : Option Priority
deriving DecidableEq, Repr

/-- JS object property lookup `obj?.[key]`: the first binding of `key`,
`undefined` when absent. -/
def jsLookup (obj : List (String × JSVal)) (k : String) : JSVal :=
  match obj with
  | [] => .undef
  | (k', v) :: rest => if k' = k then v else jsLookup rest k

namespace UniversalMessageQueue

/-- `maxQueueSize` from `UniversalMessageQueue`: maximum number of live
messages per topic before overflow to the DLQ. -/
def maxQueueSize : Nat := 10000

/-- `getPriorityValue(priority)`: critical = 4, high = 3, normal = 2,
low = 1; the `default` branch (absent priority) returns 2. -/
def getPriorityValue : Option Priority → Nat
  | some .critical => 4
  | some .high => 3
  | some .normal => 2
  | some .low => 1
  | none => 2

/-- Per-topic queue state: the live priority queue and the dead-letter
store of one topic (one entry of the `queues` / `dlq` maps). -/
structure QState where
  queue : List IMessage
  dlq : List IMessage
deriving DecidableEq, Repr

/-- The insertion loop of `enqueue`: scan for the first position whose
priority is strictly lower than the new message's and splice the
message in there; append when no such position exists. -/
def enqueueInsert (m : IMessage) : List IMessage → List IMessage
  | [] => [m]
  | x :: xs =>
    if getPriorityValue x.priority < getPriorityValue m.priority then
      m :: x :: xs
    else
      x :: enqueueInsert m xs

/-- `enqueue(topic, message)` restricted to one topic's state: divert to
the DLQ tail when the live queue already holds `maxQueueSize` entries,
otherwise insert by priority.  The method is `async` but never rejects:
the embedding is a total function. -/
def enqueue (s : QState) (m : IMessage) : QState :=
  if s.queue.length ≥ maxQueueSize then
    { s with dlq := s.dlq ++ [m] }
  else
    { s with queue := enqueueInsert m s.queue }

/-- `dequeue(topic)`: `queue?.shift() || null`, i.e. remove and return
the head, or `null` (here `none`) when the queue is empty or the topic
unknown. -/
def dequeue (s : QState) : Option IMessage × QState :=
  match s.queue with
  | [] => (none, s)
  | m :: rest => (some m, { s with queue := rest })

/-- Folding a sequence of `enqueue` calls for one topic over the empty
initial state. -/
def enqueueAll (msgs : List IMessage) : QState :=
  msgs.foldl enqueue ⟨[], []⟩

/-- Abbreviation for the descending-priority ordering on messages. -/
def PrioDesc (a b : IMessage) : Prop :=
  getPriorityValue b.priority ≤ getPriorityValue a.priority

theorem mem_enqueueInsert {z m : IMessage} {l : List IMessage} :
    z ∈ enqueueInsert m l ↔ z = m ∨ z ∈ l := by
  induction l with
  | nil => simp [enqueueInsert]
  | cons x xs ih =>
    by_cases h : getPriorityValue x.priority < getPriorityValue m.priority
    · rw [enqueueInsert, if_pos h]
      simp only [List.mem_cons]
    · rw [enqueueInsert, if_neg h]
      simp only [List.mem_cons, ih]
      tauto

theorem length_enqueueInsert (m : IMessage) (l : List IMessage) :
    (enqueueInsert m l).length = l.length + 1 := by
  induction l with
  | nil => rfl
  | cons x xs ih =>
    by_cases h : getPriorityValue x.priority < getPriorityValue m.priority
    · simp [enqueueInsert, h]
    · simp [enqueueInsert, h, ih]

theorem pairwise_enqueueInsert {m : IMessage} {l : List IMessage}
    (h : l.Pairwise PrioDesc) : (enqueueInsert m l).Pairwise PrioDesc := by
  induction l with
  | nil => simp [enqueueInsert, List.pairwise_cons]
  | cons x xs ih =>
    rw [List.pairwise_cons] at h
    by_cases hx : getPriorityValue x.priority < getPriorityValue m.priority
    · rw [enqueueInsert, if_pos hx]
      refine List.Pairwise.cons ?_ (List.Pairwise.cons h.1 h.2)
      intro z hz
      rcases List.mem_cons.mp hz with hz | hz
      · subst hz; exact Nat.le_of_lt hx
      · exact Nat.le_trans (h.1 z hz) (Nat.le_of_lt hx)
    · rw [enqueueInsert, if_neg hx]
      refine List.Pairwise.cons ?_ (ih h.2)
      intro z hz
      rcases mem_enqueueInsert.mp hz with hz | hz
      · subst hz; exact Nat.le_of_not_lt hx
      · exact h.1 z hz

/-- Predicate selecting messages of one priority band. -/
def bandP (p : Nat) (x : IMessage) : Bool :=
  getPriorityValue x.priority == p

theorem filter_enqueueInsert {m : IMessage} {l : List IMessage} (p : Nat)
    (h : l.Pairwise PrioDesc) :
    (enqueueInsert m l).filter (bandP p) =
      l.filter (bandP p) ++ (if bandP p m then [m] else []) := by
  induction l with
  | nil => by_cases hm : bandP p m <;> simp [enqueueInsert, hm]
  | cons x xs ih =>
    rw [List.pairwise_cons] at h
    by_cases hx : getPriorityValue x.priority < getPriorityValue m.priority
    · rw [enqueueInsert, if_pos hx]
      by_cases hm : bandP p m
      · have hp : getPriorityValue m.priority = p := by
          simpa [bandP] using hm
        have hnil : (x :: xs).filter (bandP p) = [] := by
          apply List.filter_eq_nil_iff.mpr
          intro z hz
          have hzlt : getPriorityValue z.priority < p := by
            rcases List.mem_cons.mp hz with hz | hz
            · subst hz; omega
            · have hzx : getPriorityValue z.priority ≤ getPriorityValue x.priority :=
                h.1 z hz
              omega
          simp only [bandP, beq_iff_eq]
          omega
        rw [List.filter_cons, if_pos hm, hnil, if_pos hm]
        rfl
      · rw [List.filter_cons, if_neg hm, if_neg hm, List.append_nil]
    · rw [enqueueInsert, if_neg hx]
      rw [List.filter_cons, List.filter_cons]
      by_cases hxp : bandP p x
      · rw [if_pos hxp, if_pos hxp, List.cons_append, ih h.2]
      · rw [if_neg hxp, if_neg hxp]
        exact ih h.2

theorem pairwise_enqueue {s : QState} {m : IMessage}
    (h : s.queue.Pairwise PrioDesc) : (enqueue s m).queue.Pairwise PrioDesc := by
  unfold enqueue
  by_cases hlen : s.queue.length ≥ maxQueueSize
  · simpa [hlen] using h
  · simpa [hlen] using pairwise_enqueueInsert h

theorem pairwise_foldl_enqueue (msgs : List IMessage) (s : QState)
    (h : s.queue.Pairwise PrioDesc) :
    (msgs.foldl enqueue s).queue.Pairwise PrioDesc := by
  induction msgs generalizing s with
  | nil => exact h
  | cons m rest ih => exact ih (enqueue s m) (pairwise_enqueue h)

theorem filter_foldl_enqueue_sublist (msgs : List IMessage) (s : QState) (p : Nat)
    (h : s.queue.Pairwise PrioDesc) :
    ((msgs.foldl enqueue s).queue.filter (bandP p)).Sublist
      (s.queue.filter (bandP p) ++ msgs.filter (bandP p)) := by
  induction msgs generalizing s with
  | nil => simp
  | cons m rest ih =>
    have step := ih (enqueue s m) (pairwise_enqueue h)
    rw [List.foldl_cons]
    by_cases hlen : s.queue.length ≥ maxQueueSize
    · have hq : (enqueue s m).queue = s.queue := by simp [enqueue, hlen]
      rw [hq] at step
      refine step.trans ?_
      rw [List.filter_cons]
      by_cases hm : bandP p m
      · simp only [hm, if_pos]
        exact (List.sublist_cons_self m _).append_left _
      · simp [hm]
    · have hq : (enqueue s m).queue = enqueueInsert m s.queue := by
        simp [enqueue, hlen]
      rw [hq, filter_enqueueInsert p h] at step
      refine step.trans ?_
      rw [List.append_assoc, List.filter_cons]
      by_cases hm : bandP p m <;> simp [hm]

theorem filter_foldl_enqueue_eq (msgs : List IMessage) (s : QState) (p : Nat)
    (h : s.queue.Pairwise PrioDesc)
    (hlen : s.queue.length + msgs.length ≤ maxQueueSize) :
    (msgs.foldl enqueue s).queue.filter (bandP p) =
      s.queue.filter (bandP p) ++ msgs.filter (bandP p) := by
  induction msgs generalizing s with
  | nil => simp
  | cons m rest ih =>
    have hlt : ¬ s.queue.length ≥ maxQueueSize := by
      simp only [List.length_cons] at hlen
      omega
    have hq : (enqueue s m).queue = enqueueInsert m s.queue := by
      simp [enqueue, hlt]
    rw [List.foldl_cons]
    have hlen' : (enqueue s m).queue.length + rest.length ≤ maxQueueSize := by
      rw [hq, length_enqueueInsert]
      simp only [List.length_cons] at hlen
      omega
    rw [ih (enqueue s m) (pairwise_enqueue h) hlen', hq, filter_enqueueInsert p h]
    rw [List.append_assoc, List.filter_cons]
    by_cases hm : bandP p m <;> simp [hm]

end UniversalMessageQueue

open UniversalMessageQueue in
/-- C1: every sequence of `enqueue` calls on one topic leaves the live
queue in non-increasing priority order (critical=4 > high=3 > normal=2 >
low=1, absent priority comparing as normal=2); within each priority band
messages keep their enqueue order — in general the band is a subsequence
of the enqueued band (overflow may divert entries to the DLQ), and when
the whole sequence fits under `maxQueueSize` the band is exactly the
enqueued band; repeated `dequeue` calls return exactly this queue front
to back, and `dequeue` on an empty queue returns `null` (here `none`)
rather than raising an error. -/
theorem c1_priority_order_fifo (msgs : List IMessage) :
    (enqueueAll msgs).queue.Pairwise PrioDesc
    ∧ (∀ p : Nat,
        ((enqueueAll msgs).queue.filter (bandP p)).Sublist
          (msgs.filter (bandP p)))
    ∧ (msgs.length ≤ maxQueueSize →
        ∀ p : Nat,
          (enqueueAll msgs).queue.filter (bandP p) = msgs.filter (bandP p))
    ∧ (∀ s : QState, s.queue = [] → dequeue s = (none, s))
    ∧ (∀ (s : QState) (m : IMessage) (rest : List IMessage),
        s.queue = m :: rest → dequeue s = (some m, { s with queue := rest })) := by
  refine ⟨?_, ?_, ?_, ?_, ?_⟩
  · exact pairwise_foldl_enqueue msgs ⟨[], []⟩ (by simp)
  · intro p
    simpa using filter_foldl_enqueue_sublist msgs ⟨[], []⟩ p (by simp)
  · intro hlen p
    simpa using filter_foldl_enqueue_eq msgs ⟨[], []⟩ p (by simp) (by simpa using hlen)
  · intro s hs
    simp [dequeue, hs]
  · intro s m rest hs
    simp [dequeue, hs]

/-- Sample messages used by concrete witnesses: one of each priority
plus a message with no priority. -/
def m1w : IMessage := ⟨"m1", "t", [], [], some .normal⟩

def m2w : IMessage := ⟨"m2", "t", [], [], some .low⟩

def m3w : IMessage := ⟨"m3", "t", [], [], some .critical⟩

def m4w : IMessage := ⟨"m4", "t", [], [], some .high⟩

def m5w : IMessage := ⟨"m5", "t", [], [], none⟩

/-- Concrete witness for C1: enqueueing normal `m1w`, low `m2w`,
critical `m3w`, high `m4w`, then `m5w` with no priority; the
no-overflow band equality holds at priority 2, and dequeue on an empty
queue returns `none`. -/
theorem c1_priority_order_fifo_witness :
    ([m1w, m2w, m3w, m4w, m5w].length ≤ UniversalMessageQueue.maxQueueSize
      ∧ (UniversalMessageQueue.enqueueAll [m1w, m2w, m3w, m4w, m5w]).queue.filter
          (UniversalMessageQueue.bandP 2) =
        [m1w, m2w, m3w, m4w, m5w].filter (UniversalMessageQueue.bandP 2))
    ∧ UniversalMessageQueue.dequeue ⟨[], []⟩ = (none, ⟨[], []⟩) := by
  have h := c1_priority_order_fifo [m1w, m2w, m3w, m4w, m5w]
  exact ⟨⟨by decide, h.2.2.1 (by decide) 2⟩, h.2.2.2.1 ⟨[], []⟩ rfl⟩

open UniversalMessageQueue in
/-- C2: `enqueue(topic, message)` never raises (it is a total function
of the embedding): when the topic's live queue already holds
`maxQueueSize` (10,000) entries the live queue is left unchanged (still
`maxQueueSize` entries) and the message is appended as exactly one
entry at the tail of that topic's dead-letter store; when the live
queue is below capacity the DLQ is unchanged and the message is
inserted into the live queue at its priority position. -/
theorem c2_overflow_to_dlq (s : QState) (m : IMessage) :
    (s.queue.length = maxQueueSize →
      enqueue s m = ⟨s.queue, s.dlq ++ [m]⟩
        ∧ (enqueue s m).queue.length = maxQueueSize
        ∧ (enqueue s m).dlq.length = s.dlq.length + 1)
    ∧ (s.queue.length < maxQueueSize →
        enqueue s m = ⟨enqueueInsert m s.queue, s.dlq⟩
          ∧ m ∈ (enqueue s m).queue) := by
  constructor
  · intro hfull
    have hge : s.queue.length ≥ maxQueueSize := Nat.le_of_eq hfull.symm
    refine ⟨by simp [enqueue, hge], ?_, ?_⟩
    · simp [enqueue, hge, hfull]
    · simp [enqueue, hge]
  · intro hlt
    have hnot : ¬ s.queue.length ≥ maxQueueSize := Nat.not_le.mpr hlt
    refine ⟨by simp [enqueue, hnot], ?_⟩
    simp only [enqueue, if_neg hnot]
    exact mem_enqueueInsert.mpr (Or.inl rfl)

/-- Concrete witness for C2: a queue of exactly 10,000 entries diverts
the new message to the DLQ tail, and the empty queue accepts it into
the live queue. -/
theorem c2_overflow_to_dlq_witness :
    ((UniversalMessageQueue.QState.mk
        (List.replicate UniversalMessageQueue.maxQueueSize m1w) []).queue.length =
      UniversalMessageQueue.maxQueueSize
      ∧ UniversalMessageQueue.enqueue
          ⟨List.replicate UniversalMessageQueue.maxQueueSize m1w, []⟩ m2w =
        ⟨List.replicate UniversalMessageQueue.maxQueueSize m1w, [] ++ [m2w]⟩)
    ∧ ((UniversalMessageQueue.QState.mk [] []).queue.length <
        UniversalMessageQueue.maxQueueSize
      ∧ UniversalMessageQueue.enqueue ⟨[], []⟩ m2w =
        ⟨UniversalMessageQueue.enqueueInsert m2w [], []⟩) := by
  have hfull : (UniversalMessageQueue.QState.mk
      (List.replicate UniversalMessageQueue.maxQueueSize m1w) []).queue.length =
      UniversalMessageQueue.maxQueueSize := by
    simp
  have hempty : (UniversalMessageQueue.QState.mk [] []).queue.length <
      UniversalMessageQueue.maxQueueSize := by
    simp [UniversalMessageQueue.maxQueueSize]
  exact ⟨⟨hfull, ((c2_overflow_to_dlq _ m2w).1 hfull).1⟩,
    ⟨hempty, ((c2_overflow_to_dlq _ m2w).2 hempty).1⟩⟩

namespace UniversalSubscriptionManager

/-- The candidate value `matchesFilters` compares against a filter:
`(message.payload)?.[key] || (message.metadata)?.[key]` — the payload
value when truthy, otherwise the metadata value (JS `||` returns its
left operand only when truthy). -/
def candidateValue (msg : IMessage) (k : String) : JSVal :=
  let pv := jsLookup msg.payload k
  if pv.truthy then pv else jsLookup msg.metadata k

/-- Split a pattern on `'*'` characters: the literal segments between
wildcards.  `value.replace(/\x2a/g, '.*')` turns the pattern into the
regex `seg0 .* seg1 .* ... segN`; the segments are the model of the
literal parts. -/
def splitOnStar : List Char → List (List Char)
  | [] => [[]]
  | c :: cs =>
    let r := splitOnStar cs
    if c = '*' then [] :: r
    else
      match r with
      | [] => [[c]]
      | h :: t => (c :: h) :: t

/-- Search for the first occurrence of `seg` in the string (as the
unanchored regex engine does) and return the remainder after it, or
`none` when `seg` does not occur. -/
def dropAfterFirst (seg : List Char) : List Char → Option (List Char)
  | [] => if seg.isEmpty then some [] else none
  | c :: tail =>
    if seg.isPrefixOf (c :: tail) then some (List.drop seg.length (c :: tail))
    else dropAfterFirst seg tail

/-- Match the segment list of a wildcard pattern against a string:
each literal segment must occur, in order, with arbitrary characters
("`.*`", zero or more) between, before and after — the semantics of the
unanchored `RegExp.test` on the compiled pattern.  Taking the leftmost
occurrence of each segment is complete for this pattern class, so the
greedy scan below coincides with the regex's backtracking search. -/
def matchSegs : List (List Char) → List Char → Bool
  | [], _ => true
  | seg :: rest, s =>
    match dropAfterFirst seg s with
    | none => false
    | some r => matchSegs rest r

/-- `new RegExp(value.replace(/\x2a/g, '.*')).test(String(msgValue))`:
the wildcard pattern test.  Regex metacharacters other than `'*'` are
modelled as literal characters (none occur in the claims). -/
def wildcardTest (pattern target : String) : Bool :=
  matchSegs (splitOnStar pattern.data) target.data

/-- `value.includes('*')`: does the filter string contain a wildcard. -/
def hasStar (v : String) : Bool :=
  v.data.contains '*'

/-- One key/value pair of the filter object, matched as the
`Object.entries(filters).every` body does: a string filter value
containing `'*'` is compiled to a regex and tested against the
stringified candidate; every other value is compared with strict
equality `===`. -/
def pairMatches (msg : IMessage) (k : String) (v : JSVal) : Bool :=
  let msgValue := candidateValue msg k
  match v with
  | .str sv =>
    if hasStar sv then wildcardTest sv msgValue.jsToString
    else msgValue == JSVal.str sv
  | _ => msgValue == v

/-- `matchesFilters(message, filters)`: `true` when `filters` is absent,
otherwise every filter entry must match. -/
def matchesFilters (msg : IMessage) (filters : Option (List (String × JSVal))) : Bool :=
  match filters with
  | none => true
  | some fs => fs.all fun kv => pairMatches msg kv.1 kv.2

theorem dropAfterFirst_isSome {seg s : List Char} :
    (dropAfterFirst seg s).isSome = true ↔ seg <:+: s := by
  induction s with
  | nil =>
    by_cases h : seg.isEmpty
    · have hnil : seg = [] := by simpa using h
      subst hnil
      simp [dropAfterFirst]
    · have hnil : seg ≠ [] := by simpa using h
      simp [dropAfterFirst, h]
      intro hc
      exact hnil hc
  | cons c tail ih =>
    by_cases h : seg.isPrefixOf (c :: tail)
    · have hpre : seg <+: c :: tail := by
        exact List.isPrefixOf_iff_prefix.mp h
      simp [dropAfterFirst, h]
      exact hpre.isInfix
    · rw [dropAfterFirst, if_neg h]
      rw [ih]
      constructor
      · intro hi
        exact hi.trans (List.suffix_cons c tail).isInfix
      · intro hi
        rcases List.infix_cons_iff.mp hi with hp | hi
        · have hb : seg.isPrefixOf (c :: tail) = true :=
            List.isPrefixOf_iff_prefix.mpr hp
          exact absurd hb h
        · exact hi

theorem splitOnStar_append_star {s : List Char} (h : s.contains '*' = false) :
    splitOnStar (s ++ ['*']) = [s, []] := by
  induction s with
  | nil => rfl
  | cons c cs ih =>
    rw [List.contains_cons] at h
    have hc : ¬ c = '*' := by
      intro hc
      subst hc
      simp at h
    have hcs : cs.contains '*' = false := by
      rcases Bool.or_eq_false_iff.mp h with ⟨_, h2⟩
      exact h2
    rw [List.cons_append, splitOnStar]
    simp only [if_neg hc, ih hcs]

theorem matchSegs_pair (seg : List Char) (s : List Char) :
    matchSegs [seg, []] s = (dropAfterFirst seg s).isSome := by
  rw [matchSegs]
  cases hd : dropAfterFirst seg s with
  | none => rfl
  | some r =>
    simp only [Option.isSome_some]
    cases r with
    | nil => rfl
    | cons a b => rfl

end UniversalSubscriptionManager

/-- Messages for the C5 example: payload `region` of `"us-east"`
resp. `"eu-west"`. -/
def msgUS : IMessage := ⟨"u1", "t", [("region", .str "us-east")], [], none⟩

def msgEU : IMessage := ⟨"u2", "t", [("region", .str "eu-west")], [], none⟩

open UniversalSubscriptionManager in
/-- C5: `matchesFilters` is an AND over the filter entries; the
candidate value is the payload value falling back to metadata; a string
filter value containing `'*'` matches iff the compiled regex (each
`'*'` → `.*`, unanchored, hence substring-style with the wildcard
matching zero or more characters) matches the stringified candidate —
for a pattern `s0*` with literal `s0` this holds iff `s0` occurs as an
infix of the stringified candidate; every other filter value must be
strictly equal to the candidate; absent filters always match.  The
filter `region: "us-*"` matches payload region `"us-east"` and not
`"eu-west"`. -/
theorem c5_matchesFilters_semantics :
    (∀ msg : IMessage, matchesFilters msg none = true)
    ∧ (∀ (msg : IMessage) (fs₁ fs₂ : List (String × JSVal)),
        matchesFilters msg (some (fs₁ ++ fs₂)) =
          (matchesFilters msg (some fs₁) && matchesFilters msg (some fs₂)))
    ∧ (∀ (msg : IMessage) (fs : List (String × JSVal)),
        matchesFilters msg (some fs) = true ↔
          ∀ kv ∈ fs, pairMatches msg kv.1 kv.2 = true)
    ∧ (∀ (msg : IMessage) (k : String) (v : JSVal),
        (∀ sv : String, v ≠ .str sv) →
        pairMatches msg k v = (candidateValue msg k == v))
    ∧ (∀ (msg : IMessage) (k : String) (sv : String),
        hasStar sv = false →
        pairMatches msg k (.str sv) = (candidateValue msg k == .str sv))
    ∧ (∀ (msg : IMessage) (k : String) (s₀ : String),
        s₀.data.contains '*' = false →
        (pairMatches msg k (.str (s₀ ++ "*")) = true ↔
          s₀.data <:+: (JSVal.jsToString (candidateValue msg k)).data))
    ∧ matchesFilters msgUS (some [("region", .str "us-*")]) = true
    ∧ matchesFilters msgEU (some [("region", .str "us-*")]) = false := by
  refine ⟨fun _ => rfl, ?_, ?_, ?_, ?_, ?_, by decide, by decide⟩
  · intro msg fs₁ fs₂
    simp [matchesFilters, List.all_append]
  · intro msg fs
    simp [matchesFilters, List.all_eq_true]
  · intro msg k v hv
    cases v with
    | str sv => exact absurd rfl (hv sv)
    | num n => rfl
    | bool b => rfl
    | null => rfl
    | undef => rfl
  · intro msg k sv hsv
    simp [pairMatches, hsv]
  · intro msg k s₀ h
    have hstar : hasStar (s₀ ++ "*") = true := by
      simp [hasStar, String.data_append]
    rw [pairMatches]
    simp only [hstar, if_pos]
    rw [wildcardTest, String.data_append]
    have hdata : ("*" : String).data = ['*'] := rfl
    rw [hdata, splitOnStar_append_star h, matchSegs_pair]
    exact dropAfterFirst_isSome

/-- Concrete witness for C5: the literal prefix `"us-"` contains no
wildcard, and for the message with payload region `"us-east"` the
wildcard characterization applies. -/
theorem c5_matchesFilters_semantics_witness :
    ("us-" : String).data.contains '*' = false
    ∧ (UniversalSubscriptionManager.pairMatches msgUS "region"
          (.str ("us-" ++ "*")) = true ↔
        ("us-" : String).data <:+:
          (JSVal.jsToString
            (UniversalSubscriptionManager.candidateValue msgUS "region")).data) := by
  exact ⟨by decide, c5_matchesFilters_semantics.2.2.2.2.2.1 msgUS "region" "us-" (by decide)⟩

open UniversalSubscriptionManager in
/-- C10: because the candidate is computed with JS `||`, a falsy payload
value (`0`, `false`, `""`, `null`) is discarded and the metadata value
(`undefined` when the key is absent) is compared instead; hence a
message whose payload maps `k` to `0` while its metadata lacks `k`
fails the filter `(k, 0)` even though the payload value equals the
filter value. -/
theorem c10_falsy_payload_fallback :
    (∀ (msg : IMessage) (k : String),
        (jsLookup msg.payload k).truthy = false →
        candidateValue msg k = jsLookup msg.metadata k)
    ∧ (JSVal.truthy (.num 0) = false ∧ JSVal.truthy (.bool false) = false
        ∧ JSVal.truthy (.str "") = false ∧ JSVal.truthy .null = false)
    ∧ (∀ (msg : IMessage) (k : String),
        jsLookup msg.payload k = .num 0 →
        (∀ v : JSVal, (k, v) ∉ msg.metadata) →
        matchesFilters msg (some [(k, .num 0)]) = false) := by
  have hundef : ∀ (obj : List (String × JSVal)) (k : String),
      (∀ v : JSVal, (k, v) ∉ obj) → jsLookup obj k = .undef := by
    intro obj k h
    induction obj with
    | nil => rfl
    | cons kv rest ih =>
      obtain ⟨k', v⟩ := kv
      rw [jsLookup]
      by_cases hk : k' = k
      · subst hk
        exact absurd (List.mem_cons_self _ _) (h v)
      · rw [if_neg hk]
        exact ih fun v hv => h v (List.mem_cons_of_mem _ hv)
  refine ⟨?_, ⟨rfl, rfl, rfl, rfl⟩, ?_⟩
  · intro msg k h
    simp [candidateValue, h]
  · intro msg k hp hm
    have hc : candidateValue msg k = .undef := by
      rw [candidateValue]
      simp only [hp]
      rw [if_neg (by simp [JSVal.truthy]), hundef msg.metadata k hm]
    simp [matchesFilters, pairMatches, hc]

/-- Concrete witness for C10: payload `k = 0`, metadata empty — the
filter `(k, 0)` does not match. -/
theorem c10_falsy_payload_fallback_witness :
    (jsLookup [("k", JSVal.num 0)] "k" = .num 0
      ∧ (∀ v : JSVal, ("k", v) ∉ ([] : List (String × JSVal)))
      ∧ UniversalSubscriptionManager.matchesFilters
          ⟨"m", "t", [("k", JSVal.num 0)], [], none⟩
          (some [("k", JSVal.num 0)]) = false)
    ∧ ((jsLookup (IMessage.payload ⟨"m", "t", [("k", JSVal.num 0)], [], none⟩) "k").truthy = false
      ∧ UniversalSubscriptionManager.candidateValue
          ⟨"m", "t", [("k", JSVal.num 0)], [], none⟩ "k" =
        jsLookup (IMessage.metadata ⟨"m", "t", [("k", JSVal.num 0)], [], none⟩) "k") := by
  refine ⟨⟨by decide, by simp, ?_⟩, ⟨by decide, ?_⟩⟩
  · exact c10_falsy_payload_fallback.2.2 _ "k" (by decide) (by simp)
  · exact c10_falsy_payload_fallback.1 _ "k" (by decide)

/-- Association-list model of a JS `Map`: lookup by key. -/
def lookupA {β : Type} (l : List (String × β)) (k : String) : Option β :=
  match l with
  | [] => none
  | (k', v) :: rest => if k' = k then some v else lookupA rest k

/-- Association-list model of `Map.set`: replace the binding of `k`
when present, append otherwise. -/
def setA {β : Type} (l : List (String × β)) (k : String) (v : β) : List (String × β) :=
  match l with
  | [] => [(k, v)]
  | (k', v') :: rest => if k' = k then (k, v) :: rest else (k', v') :: setA rest k v

/-- Association-list model of `Map.delete`: drop the binding of `k`. -/
def eraseA {β : Type} (l : List (String × β)) (k : String) : List (String × β) :=
  match l with
  | [] => []
  | (k', v') :: rest => if k' = k then rest else (k', v') :: eraseA rest k

theorem lookupA_setA {β : Type} (l : List (String × β)) (k k' : String) (v : β) :
    lookupA (setA l k v) k' = if k = k' then some v else lookupA l k' := by
  induction l with
  | nil =>
    by_cases h : k = k' <;> simp [setA, lookupA, h]
  | cons kv rest ih =>
    obtain ⟨k₀, v₀⟩ := kv
    by_cases h0 : k₀ = k
    · subst h0
      by_cases h : k₀ = k' <;> simp [setA, lookupA, h]
    · rw [setA, if_neg h0, lookupA]
      by_cases h1 : k₀ = k'
      · subst h1
        have : ¬ k = k₀ := fun hk => h0 hk.symm
        simp [lookupA, this]
      · rw [if_neg h1, ih, lookupA, if_neg h1]

namespace UniversalHandlerRegistry

/-- A registered `IMessageHandler`: its numeric `priority`, its
`canHandle` predicate, and a tag standing for the identity of its
`handle` method (whose invocation is the observable effect). -/
structure Handler where
  priority : Int
  canHandle : IMessage → Bool
  tag : String

/-- Insert a handler in front of the first strictly-lower-priority
element: the effect of the stable `Array.prototype.sort` with
comparator `(a, b) => (b.priority || 0) - (a.priority || 0)` on a
descending-sorted list with one new element pushed at the end. -/
def insDesc (h : Handler) : List Handler → List Handler
  | [] => [h]
  | x :: xs =>
    if x.priority < h.priority then h :: x :: xs else x :: insDesc h xs

/-- Stable descending insertion sort by priority: the model of the
(ES2019-stable) `sort` call performed by `register`/`registerGlobal`
after pushing the new handler. -/
def sortDesc : List Handler → List Handler
  | [] => []
  | x :: xs => insDesc x (sortDesc xs)

/-- The registry state: `handlers` maps a message type to its handler
list, `globalHandlers` is the list for all types.  The middleware list
is empty throughout the claims (no `addMiddleware` call occurs), in
which case `handle`'s continuation chain goes straight to the terminal
fan-out step. -/
structure Registry where
  handlers : List (String × List Handler)
  globalHandlers : List Handler

/-- `register(messageType, handler)`: create the type's list when
absent, push the handler, re-sort descending by priority. -/
def register (reg : Registry) (messageType : String) (h : Handler) : Registry :=
  { reg with
      handlers := setA reg.handlers messageType
        (sortDesc ((lookupA reg.handlers messageType).getD [] ++ [h])) }

/-- `registerGlobal(handler)`: push onto the global list and re-sort
descending by priority. -/
def registerGlobal (reg : Registry) (h : Handler) : Registry :=
  { reg with globalHandlers := sortDesc (reg.globalHandlers ++ [h]) }

/-- The terminal step of `handle(message)`:
`allHandlers = [...globalHandlers, ...handlers.get(message.type) ?? []]`,
filtered to those whose `canHandle(message)` is true; `map` then
submits their `handle` calls in exactly this list order (they run
concurrently, but submission order is this order). -/
def submissionList (reg : Registry) (msg : IMessage) : List Handler :=
  (reg.globalHandlers ++ (lookupA reg.handlers msg.type).getD []).filter
    fun h => h.canHandle msg

/-- A registration call: the two mutating entry points of the registry
used by the claims. -/
inductive RegOp where
  | reg (messageType : String) (h : Handler)
  | regGlobal (h : Handler)

/-- Apply a sequence of registration calls to the empty registry. -/
def applyOps (ops : List RegOp) : Registry :=
  ops.foldl
    (fun r op =>
      match op with
      | .reg t h => register r t h
      | .regGlobal h => registerGlobal r h)
    ⟨[], []⟩

/-- Descending-priority ordering on handlers. -/
def HPrioDesc (a b : Handler) : Prop :=
  b.priority ≤ a.priority

theorem mem_insDesc {z h : Handler} {l : List Handler} :
    z ∈ insDesc h l ↔ z = h ∨ z ∈ l := by
  induction l with
  | nil => simp [insDesc]
  | cons x xs ih =>
    by_cases hx : x.priority < h.priority
    · rw [insDesc, if_pos hx]
      simp only [List.mem_cons]
    · rw [insDesc, if_neg hx]
      simp only [List.mem_cons, ih]
      tauto

theorem pairwise_insDesc {h : Handler} {l : List Handler}
    (hl : l.Pairwise HPrioDesc) : (insDesc h l).Pairwise HPrioDesc := by
  induction l with
  | nil => simp [insDesc, List.pairwise_cons]
  | cons x xs ih =>
    rw [List.pairwise_cons] at hl
    by_cases hx : x.priority < h.priority
    · rw [insDesc, if_pos hx]
      refine List.Pairwise.cons ?_ (List.Pairwise.cons hl.1 hl.2)
      intro z hz
      rcases List.mem_cons.mp hz with hz | hz
      · subst hz; exact Int.le_of_lt hx
      · exact Int.le_trans (hl.1 z hz) (Int.le_of_lt hx)
    · rw [insDesc, if_neg hx]
      refine List.Pairwise.cons ?_ (ih hl.2)
      intro z hz
      rcases mem_insDesc.mp hz with hz | hz
      · subst hz; exact le_of_not_lt hx
      · exact hl.1 z hz

theorem pairwise_sortDesc (l : List Handler) :
    (sortDesc l).Pairwise HPrioDesc := by
  induction l with
  | nil => simp [sortDesc]
  | cons x xs ih => exact pairwise_insDesc ih

/-- Invariant: every per-type handler list in a registry built by
registration calls is sorted descending by priority, as is the global
list. -/
theorem applyOps_sorted (ops : List RegOp) :
    (applyOps ops).globalHandlers.Pairwise HPrioDesc
    ∧ ∀ (t : String) (l : List Handler),
        lookupA (applyOps ops).handlers t = some l → l.Pairwise HPrioDesc := by
  suffices h : ∀ (reg : Registry),
      reg.globalHandlers.Pairwise HPrioDesc →
      (∀ (t : String) (l : List Handler),
        lookupA reg.handlers t = some l → l.Pairwise HPrioDesc) →
      ((ops.foldl
          (fun r op =>
            match op with
            | .reg t h => register r t h
            | .regGlobal h => registerGlobal r h) reg).globalHandlers.Pairwise HPrioDesc
        ∧ ∀ (t : String) (l : List Handler),
            lookupA (ops.foldl
              (fun r op =>
                match op with
                | .reg t h => register r t h
                | .regGlobal h => registerGlobal r h) reg).handlers t = some l →
              l.Pairwise HPrioDesc) by
    exact h ⟨[], []⟩ (by simp) (by intro t l hl; simp [lookupA] at hl)
  induction ops with
  | nil => intro reg hg ht; exact ⟨hg, ht⟩
  | cons op rest ih =>
    intro reg hg ht
    rw [List.foldl_cons]
    cases op with
    | reg t h =>
      refine ih (register reg t h) hg ?_
      intro t' l hl
      rw [register] at hl
      simp only at hl
      rw [lookupA_setA] at hl
      by_cases htt : t = t'
      · rw [if_pos htt] at hl
        cases hl
        exact pairwise_sortDesc _
      · rw [if_neg htt] at hl
        exact ht t' l hl
    | regGlobal h =>
      refine ih (registerGlobal reg h) (pairwise_sortDesc _) ?_
      intro t' l hl
      exact ht t' l hl

end UniversalHandlerRegistry

/-- Handlers and message for the C6 examples: a global logging handler
(priority 100), a type-scoped validation handler (priority 10) for
`"order.created"`, and a priority-inverted pair (global priority 1,
type-scoped priority 100). -/
def loggingH : UniversalHandlerRegistry.Handler := ⟨100, fun _ => true, "logging"⟩

def validationH : UniversalHandlerRegistry.Handler := ⟨10, fun _ => true, "validation"⟩

def auditH : UniversalHandlerRegistry.Handler := ⟨1, fun _ => true, "audit"⟩

def urgentH : UniversalHandlerRegistry.Handler := ⟨100, fun _ => true, "urgent"⟩

def orderMsg : IMessage := ⟨"o1", "order.created", [], [], none⟩

open UniversalHandlerRegistry in
/-- C6: `handle(message)` submits handler invocations in a
deterministic order: the global handlers in descending registered
priority first, then the handlers registered for `message.type` in
descending priority, each list filtered to those whose
`canHandle(message)` is true — so every global handler is submitted
before every type-scoped one regardless of relative priorities.
Concretely, a global priority-100 logging handler is submitted before a
type-scoped priority-10 validation handler, and even a global
priority-1 handler is submitted before a type-scoped priority-100
one. -/
theorem c6_global_before_typed :
    (∀ (ops : List RegOp) (msg : IMessage),
        submissionList (applyOps ops) msg =
          (applyOps ops).globalHandlers.filter (fun h => h.canHandle msg)
            ++ ((lookupA (applyOps ops).handlers msg.type).getD []).filter
                fun h => h.canHandle msg)
    ∧ (∀ ops : List RegOp, (applyOps ops).globalHandlers.Pairwise HPrioDesc)
    ∧ (∀ (ops : List RegOp) (t : String) (l : List Handler),
        lookupA (applyOps ops).handlers t = some l → l.Pairwise HPrioDesc)
    ∧ (submissionList
          (applyOps [.regGlobal loggingH, .reg "order.created" validationH])
          orderMsg).map (fun h => h.tag) = ["logging", "validation"]
    ∧ (submissionList
          (applyOps [.reg "order.created" urgentH, .regGlobal auditH])
          orderMsg).map (fun h => h.tag) = ["audit", "urgent"] := by
  refine ⟨?_, ?_, ?_, rfl, rfl⟩
  · intro ops msg
    rw [submissionList, List.filter_append]
  · intro ops
    exact (applyOps_sorted ops).1
  · intro ops t l hl
    exact (applyOps_sorted ops).2 t l hl

/-- Concrete witness for C6: registering the validation handler for
`"order.created"` yields a per-type list that the sortedness clause
applies to. -/
theorem c6_global_before_typed_witness :
    lookupA (UniversalHandlerRegistry.applyOps
        [.reg "order.created" validationH]).handlers "order.created" =
      some [validationH]
    ∧ List.Pairwise UniversalHandlerRegistry.HPrioDesc [validationH] := by
  exact ⟨rfl, c6_global_before_typed.2.2.1
    [.reg "order.created" validationH] "order.created" [validationH] rfl⟩

namespace RetryHandler

/-- Constructor parameters of `RetryHandler`:
`maxRetries` (default 3) and `retryDelay` in ms (default 1000). -/
structure Config where
  maxRetries : Nat
  retryDelay : Nat

/-- The `retryCount` map, keyed by message id. -/
def RetryState := List (String × Nat)

/-- Which branch of `handle(message)` ran, as observable behavior:
`terminalError` is the max-retries branch (a `console.error` of the
exceeded message, then `return` — no retry is scheduled),
`processed` is successful processing, `retryScheduled delay` is the
catch branch, which sets the counter and arms a `setTimeout` for
`retryDelay * 2^attempt` ms (the timer's callback only logs
`Retrying message …`). -/
inductive Action where
  | terminalError
  | processed
  | retryScheduled (delay : Nat)
deriving DecidableEq, Repr

/-- The full observable outcome of one `handle(message)` call: which
branch ran, whether the promise `handle` returns rejects (the only
error channel its caller can see), and the updated `retryCount` map. -/
structure HandleResult where
  action : Action
  rejects : Bool
  state : RetryState

/-- `handle(message)` of `RetryHandler`, with the outcome of the inner
`processMessage` call abstracted as `processSucceeds`:
read the per-id counter (0 when absent); when it has reached
`maxRetries`, log the terminal error and delete the counter entry;
otherwise run processing — on success delete the entry, on failure set
the counter to `current + 1` and arm the retry timer for
`retryDelay * 2^current` ms (attempt counted from zero).
Every branch of the source returns normally: the max-retries branch
ends in `return` after its `console.error`; the success branch just
deletes the entry; the `catch` branch swallows the `processMessage`
rejection (`console.warn`, `set`, `setTimeout`) — so the promise
`handle` returns fulfills on every path (`rejects := false` in each
branch below); nothing is thrown to the caller. -/
def handle (cfg : Config) (st : RetryState) (msgId : String)
    (processSucceeds : Bool) : HandleResult :=
  if (lookupA st msgId).getD 0 ≥ cfg.maxRetries then
    ⟨.terminalError, false, eraseA st msgId⟩
  else if processSucceeds then
    ⟨.processed, false, eraseA st msgId⟩
  else
    ⟨.retryScheduled (cfg.retryDelay * 2 ^ ((lookupA st msgId).getD 0)), false,
      setA st msgId ((lookupA st msgId).getD 0 + 1)⟩

theorem lookupA_eraseA_self {β : Type} (l : List (String × β)) (k : String)
    (hnodup : (l.map Prod.fst).Nodup) :
    lookupA (eraseA l k) k = none := by
  induction l with
  | nil => rfl
  | cons kv rest ih =>
    obtain ⟨k₀, v₀⟩ := kv
    simp only [List.map_cons, List.nodup_cons] at hnodup
    rw [eraseA]
    by_cases h0 : k₀ = k
    · rw [if_pos h0]
      subst h0
      cases hl : lookupA rest k₀ with
      | none => rfl
      | some v =>
        exfalso
        apply hnodup.1
        clear ih hnodup
        induction rest with
        | nil => simp [lookupA] at hl
        | cons kv' rest' ih' =>
          obtain ⟨k₁, v₁⟩ := kv'
          rw [lookupA] at hl
          by_cases h1 : k₁ = k₀
          · subst h1
            exact List.mem_map_of_mem Prod.fst (List.mem_cons_self _ _)
          · rw [if_neg h1] at hl
            simp only [List.map_cons, List.mem_cons]
            exact Or.inr (ih' hl)
    · rw [if_neg h0, lookupA, if_neg h0]
      exact ih hnodup.2

end RetryHandler

/-- C4 counterexample: with `maxRetries = 3` and the counter for
message `"x"` already at 3, a `handle` call takes the exhaustion
branch — the terminal `console.error` fires (action `terminalError`)
and the counter entry is removed — yet the promise `handle` returns
fulfills: `rejects = false`, so no error of any kind reaches `handle`'s
caller.  This refutes the claim's "the failure is surfaced to the
caller as a terminal error": the max-retries branch of
`RetryHandler.handle` only logs and returns. -/
theorem c4_not_surfaced_to_caller_counterexample :
    (RetryHandler.handle ⟨3, 1000⟩ [("x", 3)] "x" false).action =
      RetryHandler.Action.terminalError
    ∧ lookupA (RetryHandler.handle ⟨3, 1000⟩ [("x", 3)] "x" false).state "x" =
      none
    ∧ ¬ (RetryHandler.handle ⟨3, 1000⟩ [("x", 3)] "x" false).rejects = true := by
  refine ⟨rfl, rfl, ?_⟩
  intro h
  exact Bool.false_ne_true h

open RetryHandler in
/-- C4 (amended): for every message id handled by `RetryHandler`: on a
processing failure while the per-id counter is strictly below
`maxRetries`, the counter becomes `current + 1` and a retry timer is
armed for `retryDelay * 2^current` ms (attempt counted from zero — the
first failure waits `retryDelay * 2^0`); when a message arrives with
the counter already at `maxRetries`, the counter entry is removed and
the terminal failure is only reported via the max-retries error log —
the message is neither processed nor retried further, and `handle`'s
promise fulfills on this and every other path (`rejects = false`), so
the failure is not raised to `handle`'s caller. -/
theorem c4_retry_backoff_terminal_log (cfg : Config) (st : RetryState)
    (msgId : String) :
    (∀ current : Nat,
        (lookupA st msgId).getD 0 = current →
        current < cfg.maxRetries →
        handle cfg st msgId false =
          ⟨.retryScheduled (cfg.retryDelay * 2 ^ current), false,
            setA st msgId (current + 1)⟩
          ∧ lookupA (handle cfg st msgId false).state msgId = some (current + 1))
    ∧ ((lookupA st msgId).getD 0 ≥ cfg.maxRetries →
        ∀ processSucceeds : Bool,
          handle cfg st msgId processSucceeds =
            ⟨.terminalError, false, eraseA st msgId⟩
          ∧ ((st.map Prod.fst).Nodup →
              lookupA (handle cfg st msgId processSucceeds).state msgId = none))
    ∧ (∀ processSucceeds : Bool,
        (handle cfg st msgId processSucceeds).rejects = false) := by
  refine ⟨?_, ?_, ?_⟩
  · intro current hcur hlt
    have hnot : ¬ (lookupA st msgId).getD 0 ≥ cfg.maxRetries := by omega
    have hstep : handle cfg st msgId false =
        ⟨.retryScheduled (cfg.retryDelay * 2 ^ current), false,
          setA st msgId (current + 1)⟩ := by
      rw [handle, if_neg hnot, if_neg Bool.false_ne_true, hcur]
    refine ⟨hstep, ?_⟩
    rw [hstep]
    rw [lookupA_setA, if_pos rfl]
  · intro hge processSucceeds
    have hstep : handle cfg st msgId processSucceeds =
        ⟨.terminalError, false, eraseA st msgId⟩ := by
      rw [handle, if_pos hge]
    refine ⟨hstep, ?_⟩
    intro hnodup
    rw [hstep]
    exact lookupA_eraseA_self st msgId hnodup
  · intro processSucceeds
    rw [handle]
    by_cases hge : (lookupA st msgId).getD 0 ≥ cfg.maxRetries
    · rw [if_pos hge]
    · rw [if_neg hge]
      cases processSucceeds with
      | true => rw [if_pos rfl]
      | false => rw [if_neg Bool.false_ne_true]

/-- Concrete witness for the amended C4 with the default configuration
(`maxRetries = 3`, `retryDelay = 1000`): a first failure of message
`"x"` arms the timer for 1000 · 2⁰ ms and sets the counter to 1; a
message whose counter is already 3 gets the terminal error log and its
entry removed, with `handle` fulfilling. -/
theorem c4_retry_backoff_terminal_log_witness :
    ((lookupA ([] : RetryHandler.RetryState) "x").getD 0 = 0
      ∧ (0 : Nat) < 3
      ∧ RetryHandler.handle ⟨3, 1000⟩ [] "x" false =
          ⟨.retryScheduled (1000 * 2 ^ 0), false, setA [] "x" 1⟩)
    ∧ ((lookupA ([("x", 3)] : RetryHandler.RetryState) "x").getD 0 ≥ 3
      ∧ RetryHandler.handle ⟨3, 1000⟩ [("x", 3)] "x" false =
          ⟨.terminalError, false, eraseA [("x", 3)] "x"⟩
      ∧ (RetryHandler.handle ⟨3, 1000⟩ [("x", 3)] "x" false).rejects = false) := by
  refine ⟨⟨rfl, by decide, ?_⟩, ⟨by decide, ?_, ?_⟩⟩
  · exact ((c4_retry_backoff_terminal_log ⟨3, 1000⟩ [] "x").1 0 rfl (by decide)).1
  · exact ((c4_retry_backoff_terminal_log ⟨3, 1000⟩ [("x", 3)] "x").2.1
      (by decide) false).1
  · exact (c4_retry_backoff_terminal_log ⟨3, 1000⟩ [("x", 3)] "x").2.2 false

namespace UniversalPerformanceMonitor

/-- Ascending insertion, the building block of the model of
`[...arr].sort((a, b) => a - b)`. -/
def insAsc (x : Nat) : List Nat → List Nat
  | [] => [x]
  | y :: ys => if x ≤ y then x :: y :: ys else y :: insAsc x ys

/-- Ascending sort of the sample window; on numbers any correct
comparison sort agrees with the JS engine's sort, so insertion sort is
a faithful model. -/
def sortAsc : List Nat → List Nat
  | [] => []
  | x :: xs => insAsc x (sortAsc xs)

/-- `getPercentile(arr, percentile)`:
`index = Math.ceil((sorted.length * percentile) / 100) - 1` and
`sorted[index] || 0`.  The ceiling of the exact rational
`n·p/100` is `(n·p + 99) / 100`; the subtraction is carried out in `Int`
because for `n·p = 0` JS produces index `-1`, an out-of-range access,
and `undefined || 0` yields `0` — as does `sorted[i] || 0` for any
out-of-range or zero-valued entry, modelled by `getD _ 0`. -/
def getPercentile (arr : List Nat) (percentile : Nat) : Nat :=
  if ((((sortAsc arr).length * percentile : Nat) : Int) + 99) / 100 - 1 < 0 then 0
  else
    (sortAsc arr).getD
      (((((sortAsc arr).length * percentile : Nat) : Int) + 99) / 100 - 1).toNat 0

/-- The per-key statistics object built by `getMetrics` for a non-empty
sample window.  `avg` is a floating-point average and is not modelled
(no claim concerns it); `min`/`max` model `Math.min(...samples)` /
`Math.max(...samples)`. -/
structure LatencyStats where
  min : Nat
  max : Nat
  count : Nat
  p95 : Nat
  p99 : Nat
deriving DecidableEq, Repr

/-- The statistics `getMetrics` computes for one key's samples. -/
def statsFor (samples : List Nat) : LatencyStats :=
  match samples with
  | [] => ⟨0, 0, 0, 0, 0⟩
  | h :: t =>
    ⟨t.foldl Nat.min h, t.foldl Nat.max h, (h :: t).length,
      getPercentile (h :: t) 95, getPercentile (h :: t) 99⟩

/-- `getMetrics()` restricted to its latency part: one stats entry per
key whose sample window is non-empty (`samples.length > 0`). -/
def getMetrics (metrics : List (String × List Nat)) :
    List (String × LatencyStats) :=
  metrics.filterMap fun kv =>
    if kv.2.isEmpty then none else some (kv.1, statsFor kv.2)

theorem insAsc_perm (x : Nat) (l : List Nat) : (insAsc x l).Perm (x :: l) := by
  induction l with
  | nil => exact List.Perm.refl _
  | cons y ys ih =>
    by_cases h : x ≤ y
    · rw [insAsc, if_pos h]
    · rw [insAsc, if_neg h]
      exact (List.Perm.cons y ih).trans (List.Perm.swap x y ys)

theorem sortAsc_perm (l : List Nat) : (sortAsc l).Perm l := by
  induction l with
  | nil => exact List.Perm.refl _
  | cons x xs ih =>
    exact (insAsc_perm x (sortAsc xs)).trans (List.Perm.cons x ih)

theorem mem_insAsc {z x : Nat} {l : List Nat} :
    z ∈ insAsc x l ↔ z = x ∨ z ∈ l := by
  rw [(insAsc_perm x l).mem_iff]
  simp

theorem pairwise_insAsc {x : Nat} {l : List Nat}
    (h : l.Pairwise (· ≤ ·)) : (insAsc x l).Pairwise (· ≤ ·) := by
  induction l with
  | nil => simp [insAsc]
  | cons y ys ih =>
    rw [List.pairwise_cons] at h
    by_cases hx : x ≤ y
    · rw [insAsc, if_pos hx]
      refine List.Pairwise.cons ?_ (List.Pairwise.cons h.1 h.2)
      intro z hz
      rcases List.mem_cons.mp hz with hz | hz
      · subst hz; exact hx
      · exact Nat.le_trans hx (h.1 z hz)
    · rw [insAsc, if_neg hx]
      refine List.Pairwise.cons ?_ (ih h.2)
      intro z hz
      rcases mem_insAsc.mp hz with hz | hz
      · subst hz; exact Nat.le_of_not_le hx
      · exact h.1 z hz

theorem pairwise_sortAsc (l : List Nat) : (sortAsc l).Pairwise (· ≤ ·) := by
  induction l with
  | nil => simp [sortAsc]
  | cons x xs ih => exact pairwise_insAsc ih

theorem getPercentile_eq (samples : List Nat) (p : Nat)
    (hns : samples ≠ []) (hp : 1 ≤ p) :
    getPercentile samples p =
      (sortAsc samples).getD ((samples.length * p + 99) / 100 - 1) 0 := by
  have hlen : (sortAsc samples).length = samples.length :=
    (sortAsc_perm samples).length_eq
  have hn : 1 ≤ samples.length :=
    Nat.one_le_iff_ne_zero.mpr (fun h0 => hns (List.length_eq_zero.mp h0))
  have ha : 1 ≤ (sortAsc samples).length * p := by
    rw [hlen]
    exact Nat.one_le_iff_ne_zero.mpr
      (Nat.mul_ne_zero (by omega) (by omega))
  have hq1 : 1 ≤ ((sortAsc samples).length * p + 99) / 100 := by
    apply (Nat.one_le_div_iff (by norm_num)).mpr
    omega
  have hcast : ((((sortAsc samples).length * p : Nat) : Int) + 99) / 100 =
      ((((sortAsc samples).length * p + 99) / 100 : Nat) : Int) := by
    have h1 : (((sortAsc samples).length * p : Nat) : Int) + 99 =
        (((sortAsc samples).length * p + 99 : Nat) : Int) := by push_cast; ring
    rw [h1, Int.ofNat_ediv]
    norm_num
  rw [getPercentile, hcast]
  rw [if_neg (by omega)]
  have htn : (((((sortAsc samples).length * p + 99) / 100 : Nat) : Int) - 1).toNat =
      ((sortAsc samples).length * p + 99) / 100 - 1 := by omega
  rw [htn, hlen]

end UniversalPerformanceMonitor

open UniversalPerformanceMonitor in
/-- C8: for every latency key whose sample window is non-empty,
`getMetrics()` reports its stats entry, and its `p95` / `p99` are the
element at index `ceil(n · percentile / 100) - 1` (written over ℕ as
`(n · percentile + 99) / 100 - 1`) of the ascending-sorted window of
`n` samples — nearest-rank, not interpolated.  The sorted window is
indeed a sorted permutation of the samples.  For the window
`[10, 20, 30, 40, 50]`, the p95 index is `ceil(5 · 95 / 100) - 1 = 4`
and p95 is `50`. -/
theorem c8_nearest_rank_percentiles :
    (∀ (metrics : List (String × List Nat)) (kv : String × List Nat),
        kv ∈ metrics → kv.2 ≠ [] →
        (kv.1, statsFor kv.2) ∈ getMetrics metrics)
    ∧ (∀ samples : List Nat, samples ≠ [] →
        (statsFor samples).p95 =
            (sortAsc samples).getD ((samples.length * 95 + 99) / 100 - 1) 0
          ∧ (statsFor samples).p99 =
            (sortAsc samples).getD ((samples.length * 99 + 99) / 100 - 1) 0
          ∧ (sortAsc samples).Pairwise (· ≤ ·)
          ∧ (sortAsc samples).Perm samples)
    ∧ (5 * 95 + 99) / 100 - 1 = 4
    ∧ getPercentile [10, 20, 30, 40, 50] 95 = 50
    ∧ getPercentile [10, 20, 30, 40, 50] 99 = 50 := by
  refine ⟨?_, ?_, by norm_num, by decide, by decide⟩
  · intro metrics kv hmem hne
    apply List.mem_filterMap.mpr
    refine ⟨kv, hmem, ?_⟩
    rw [if_neg (by simpa [List.isEmpty_iff] using hne)]
  · intro samples hns
    have h95 : (statsFor samples).p95 = getPercentile samples 95 := by
      cases samples with
      | nil => exact absurd rfl hns
      | cons h t => rfl
    have h99 : (statsFor samples).p99 = getPercentile samples 99 := by
      cases samples with
      | nil => exact absurd rfl hns
      | cons h t => rfl
    exact ⟨by rw [h95, getPercentile_eq samples 95 hns (by norm_num)],
      by rw [h99, getPercentile_eq samples 99 hns (by norm_num)],
      pairwise_sortAsc samples, sortAsc_perm samples⟩

/-- Concrete witness for C8: the window `[10, 20, 30, 40, 50]` is in
the metrics map; its stats entry appears in `getMetrics` and its p95
equals the nearest-rank element, `50`. -/
theorem c8_nearest_rank_percentiles_witness :
    (("redis.publish", [10, 20, 30, 40, 50]) ∈
        [("redis.publish", ([10, 20, 30, 40, 50] : List Nat))]
      ∧ ([10, 20, 30, 40, 50] : List Nat) ≠ []
      ∧ ("redis.publish",
          UniversalPerformanceMonitor.statsFor [10, 20, 30, 40, 50]) ∈
        UniversalPerformanceMonitor.getMetrics
          [("redis.publish", [10, 20, 30, 40, 50])])
    ∧ (UniversalPerformanceMonitor.statsFor [10, 20, 30, 40, 50]).p95 =
        (UniversalPerformanceMonitor.sortAsc [10, 20, 30, 40, 50]).getD
          (([10, 20, 30, 40, 50] : List Nat).length * 95 / 100 + 1 - 1) 0 := by
  refine ⟨⟨by decide, by decide, ?_⟩, ?_⟩
  · exact c8_nearest_rank_percentiles.1
      [("redis.publish", [10, 20, 30, 40, 50])]
      ("redis.publish", [10, 20, 30, 40, 50]) (by decide) (by decide)
  · have h := (c8_nearest_rank_percentiles.2.1 [10, 20, 30, 40, 50] (by decide)).1
    rw [h]
    rfl

namespace UniversalMessageManager

/-- The message queue component of the manager: per-topic queue/DLQ
state, total over topic names (a topic not in the `queues` map is the
empty state). -/
def MQState := String → UniversalMessageQueue.QState

/-- Point update of the per-topic state. -/
def update (st : MQState) (t : String) (q : UniversalMessageQueue.QState) : MQState :=
  fun t' => if t' = t then q else st t'

/-- The body of the `processQueues` loop for one topic: dequeue at most
one message; when one was dequeued, attempt `adapter.publish` (its
success abstracted as the `pub` oracle) — on success the message is
gone (latency is recorded, not modelled), on failure the caught error
is logged and the message is re-enqueued into the same topic's queue
via `enqueue`.  The loop body catches every adapter error, so the
embedding is a total function: nothing propagates to the caller. -/
def tickTopic (pub : String → IMessage → Bool) (t : String)
    (q : UniversalMessageQueue.QState) : UniversalMessageQueue.QState :=
  match q.queue with
  | [] => q
  | m :: rest =>
    if pub t m then ⟨rest, q.dlq⟩
    else UniversalMessageQueue.enqueue ⟨rest, q.dlq⟩ m

/-- The `console.error` output of one loop body: one log line when the
adapter publish of the dequeued message failed, nothing otherwise. -/
def tickLog (pub : String → IMessage → Bool) (t : String)
    (q : UniversalMessageQueue.QState) : List String :=
  match q.queue with
  | [] => []
  | m :: _ =>
    if pub t m then [] else ["Failed to publish message for topic " ++ t]

/-- One full `processQueues` tick: the loop body applied to each topic
of the given topic list in order. -/
def processQueues (pub : String → IMessage → Bool) (topics : List String)
    (st : MQState) : MQState :=
  topics.foldl (fun st t => update st t (tickTopic pub t (st t))) st

/-- `UniversalSubscriptionManager.getAllTopics()`: the keys of the
subscriptions map — exactly the topics with at least one registered
subscription (`subscribe` creates the entry, `unsubscribe` prunes an
emptied one). -/
def getAllTopics (subs : List (String × List String)) : List String :=
  subs.map Prod.fst

/-- `publish(topic, payload, options)`: builds the message and enqueues
it — unconditionally, whether or not any subscription for the topic
exists. -/
def publish (st : MQState) (t : String) (m : IMessage) : MQState :=
  update st t (UniversalMessageQueue.enqueue (st t) m)

theorem processQueues_frame (pub : String → IMessage → Bool)
    (topics : List String) (st : MQState) (t : String) (h : t ∉ topics) :
    processQueues pub topics st t = st t := by
  induction topics generalizing st with
  | nil => rfl
  | cons t₀ rest ih =>
    rw [List.mem_cons] at h
    push_neg at h
    rw [processQueues, List.foldl_cons]
    have := ih (update st t₀ (tickTopic pub t₀ (st t₀))) h.2
    rw [processQueues] at this
    rw [this, update, if_neg h.1]

theorem processQueues_mem (pub : String → IMessage → Bool)
    (topics : List String) (st : MQState) (t : String)
    (hnd : topics.Nodup) (ht : t ∈ topics) :
    processQueues pub topics st t = tickTopic pub t (st t) := by
  induction topics generalizing st with
  | nil => exact absurd ht (List.not_mem_nil t)
  | cons t₀ rest ih =>
    rw [List.nodup_cons] at hnd
    rw [processQueues, List.foldl_cons]
    rcases List.mem_cons.mp ht with ht0 | htr
    · subst ht0
      have hframe := processQueues_frame pub rest
        (update st t (tickTopic pub t (st t))) t hnd.1
      rw [processQueues] at hframe
      rw [hframe, update, if_pos rfl]
    · have hne : t ≠ t₀ := fun he => hnd.1 (he ▸ htr)
      have := ih (update st t₀ (tickTopic pub t₀ (st t₀))) hnd.2 htr
      rw [processQueues] at this
      rw [this, update, if_neg hne]

end UniversalMessageManager

open UniversalMessageManager UniversalMessageQueue in
/-- C7: a processing tick dequeues at most one message per known topic
and attempts the adapter publish for it: a topic whose queue is empty
is untouched; on success exactly the head message is removed; on
failure the dequeued message is re-enqueued into the same topic's queue
(so it is not lost: it is again in the live queue whenever the queue
was within its capacity bound), the failure is logged, and — the loop
body catching every error, the embedding being total — nothing is
thrown to the tick's caller or to whoever originally called
`publish`. -/
theorem c7_drain_requeues_on_failure (pub : String → IMessage → Bool)
    (topics : List String) (st : MQState) (t : String) :
    (topics.Nodup → t ∈ topics →
      processQueues pub topics st t = tickTopic pub t (st t))
    ∧ ((st t).queue = [] → tickTopic pub t (st t) = st t)
    ∧ (∀ (m : IMessage) (rest : List IMessage),
        (st t).queue = m :: rest → pub t m = true →
        tickTopic pub t (st t) = ⟨rest, (st t).dlq⟩)
    ∧ (∀ (m : IMessage) (rest : List IMessage),
        (st t).queue = m :: rest → pub t m = false →
        tickTopic pub t (st t) = enqueue ⟨rest, (st t).dlq⟩ m
          ∧ ((st t).queue.length ≤ maxQueueSize →
              m ∈ (tickTopic pub t (st t)).queue)
          ∧ tickLog pub t (st t) =
              ["Failed to publish message for topic " ++ t]) := by
  refine ⟨?_, ?_, ?_, ?_⟩
  · intro hnd ht
    exact processQueues_mem pub topics st t hnd ht
  · intro hq
    rw [tickTopic, hq]
  · intro m rest hq hpub
    rw [tickTopic, hq]
    simp [hpub]
  · intro m rest hq hpub
    have hstep : tickTopic pub t (st t) = enqueue ⟨rest, (st t).dlq⟩ m := by
      rw [tickTopic, hq]
      simp [hpub]
    refine ⟨hstep, ?_, ?_⟩
    · intro hcap
      rw [hstep]
      have hrest : ¬ (rest.length ≥ maxQueueSize) := by
        rw [hq] at hcap
        simp only [List.length_cons] at hcap
        omega
      rw [enqueue]
      simp only [if_neg hrest]
      exact mem_enqueueInsert.mpr (Or.inl rfl)
    · rw [tickLog, hq]
      simp [hpub]

/-- Base state for the drain-loop witnesses: empty everywhere except
topic `"a"`, which holds the single message `m1w`. -/
def stW : UniversalMessageManager.MQState :=
  UniversalMessageManager.update (fun _ => ⟨[], []⟩) "a" ⟨[m1w], []⟩

/-- An adapter whose publish always fails. -/
def pubFail : String → IMessage → Bool := fun _ _ => false

/-- Concrete witness for C7: with the failing adapter and topics
`["a", "b"]`, the tick maps topic `"a"` through the loop body, and the
dequeued `m1w` is re-enqueued (still in the live queue) with the
failure logged. -/
theorem c7_drain_requeues_on_failure_witness :
    (["a", "b"].Nodup ∧ "a" ∈ ["a", "b"]
      ∧ UniversalMessageManager.processQueues pubFail ["a", "b"] stW "a" =
        UniversalMessageManager.tickTopic pubFail "a" (stW "a"))
    ∧ ((stW "a").queue = m1w :: [] ∧ pubFail "a" m1w = false
      ∧ (stW "a").queue.length ≤ UniversalMessageQueue.maxQueueSize
      ∧ m1w ∈ (UniversalMessageManager.tickTopic pubFail "a" (stW "a")).queue
      ∧ UniversalMessageManager.tickLog pubFail "a" (stW "a") =
          ["Failed to publish message for topic " ++ "a"]) := by
  have h := c7_drain_requeues_on_failure pubFail ["a", "b"] stW "a"
  have hq : (stW "a").queue = m1w :: [] := rfl
  have hcap : (stW "a").queue.length ≤ UniversalMessageQueue.maxQueueSize := by
    rw [hq]
    simp [UniversalMessageQueue.maxQueueSize]
  refine ⟨⟨by decide, by decide, h.1 (by decide) (by decide)⟩,
    ⟨hq, rfl, hcap, (h.2.2.2 m1w [] hq rfl).2.1 hcap, (h.2.2.2 m1w [] hq rfl).2.2⟩⟩

open UniversalMessageManager UniversalMessageQueue in
/-- C9: a processing tick iterates only the topics returned by the
subscription manager (those with at least one registered subscription);
a topic with no subscription keeps its queue and DLQ completely
unchanged across a tick, while `publish` nevertheless enqueues to such
topics — so a message published to a topic before any local subscriber
exists sits in the queue, never dequeued or handed to the adapter by
the drain loop. -/
theorem c9_tick_skips_unsubscribed_topics (pub : String → IMessage → Bool)
    (subs : List (String × List String)) (st : MQState) (t : String)
    (m : IMessage) :
    (publish st t m) t = enqueue (st t) m
    ∧ (t ∉ getAllTopics subs →
        processQueues pub (getAllTopics subs) st t = st t
          ∧ processQueues pub (getAllTopics subs) (publish st t m) t =
            enqueue (st t) m) := by
  have hpub : (publish st t m) t = enqueue (st t) m := by
    rw [publish, update, if_pos rfl]
  refine ⟨hpub, ?_⟩
  intro hni
  refine ⟨processQueues_frame pub _ st t hni, ?_⟩
  rw [processQueues_frame pub _ (publish st t m) t hni, hpub]

/-- Concrete witness for C9: with one subscription on topic `"a"`,
topic `"b"` is not drained — publishing `m2w` to `"b"` and running a
tick leaves it enqueued. -/
theorem c9_tick_skips_unsubscribed_topics_witness :
    "b" ∉ UniversalMessageManager.getAllTopics [("a", ["s1"])]
    ∧ UniversalMessageManager.processQueues pubFail
        (UniversalMessageManager.getAllTopics [("a", ["s1"])])
        (UniversalMessageManager.publish stW "b" m2w) "b" =
      UniversalMessageQueue.enqueue (stW "b") m2w := by
  have h := c9_tick_skips_unsubscribed_topics pubFail [("a", ["s1"])] stW "b" m2w
  exact ⟨by decide, (h.2 (by decide)).2⟩

namespace CircuitBreaker

/-- Modelled from the spec: the three states of `CircuitBreakerState`
(`src/utils/circuit.breaker.ts` is exported and configured by callers
but its implementation file is absent from the repository snapshot, so
the state machine of spec §4.4 is the authority). -/
inductive Status where
  | closed
  | opened
  | halfOpen
deriving DecidableEq, Repr

/-- Modelled from the spec: circuit breaker configuration —
`failureThreshold` consecutive failures trip the breaker,
`recoveryTimeout` milliseconds must elapse before a trial call
(`monitoringPeriod` does not alter the transition rules and is
omitted). -/
structure Config where
  failureThreshold : Nat
  recoveryTimeout : Nat

/-- Modelled from the spec: the breaker's mutable state — its status,
its consecutive-failure counter, and the timestamp at which it last
entered OPEN. -/
structure CB where
  status : Status
  failures : Nat
  openedAt : Nat
deriving DecidableEq, Repr

/-- The breaker as constructed: CLOSED with no recorded failures. -/
def init : CB := ⟨.closed, 0, 0⟩

/-- Modelled from the spec: `execute(operation)` at time `now`, the
wrapped operation's outcome abstracted as `opSucceeds`.  The first
component reports what happened to the operation: `none` means the
circuit-open fast failure (the operation was NOT invoked);
`some status` means the operation ran while the breaker was in
`status`.  Rules (spec §4.4): when OPEN and the timeout has not
elapsed, fail fast; when OPEN and it has elapsed, run the call in
HALF_OPEN — success closes the breaker (failure count reset), failure
re-opens it and resets the recovery timer to `now`; in CLOSED, success
resets the failure counter and failure increments it, tripping to OPEN
when the count reaches `failureThreshold`. -/
def execute (cfg : Config) (cb : CB) (now : Nat) (opSucceeds : Bool) :
    Option Status × CB :=
  match cb.status with
  | .opened =>
    if now < cb.openedAt + cfg.recoveryTimeout then
      (none, cb)
    else if opSucceeds then
      (some .halfOpen, ⟨.closed, 0, cb.openedAt⟩)
    else
      (some .halfOpen, ⟨.opened, cb.failures, now⟩)
  | .halfOpen =>
    if opSucceeds then
      (some .halfOpen, ⟨.closed, 0, cb.openedAt⟩)
    else
      (some .halfOpen, ⟨.opened, cb.failures, now⟩)
  | .closed =>
    if opSucceeds then
      (some .closed, ⟨.closed, 0, cb.openedAt⟩)
    else if cb.failures + 1 ≥ cfg.failureThreshold then
      (some .closed, ⟨.opened, cb.failures + 1, now⟩)
    else
      (some .closed, ⟨.closed, cb.failures + 1, cb.openedAt⟩)

/-- Run a sequence of failing protected calls at the given times. -/
def runFails (cfg : Config) (cb : CB) (times : List Nat) : CB :=
  times.foldl (fun cb t => (execute cfg cb t false).2) cb

theorem runFails_below_threshold (cfg : Config) (times : List Nat) :
    ∀ (k a : Nat), k + times.length < cfg.failureThreshold →
      runFails cfg ⟨.closed, k, a⟩ times = ⟨.closed, k + times.length, a⟩ := by
  induction times with
  | nil =>
    intro k a _
    simp [runFails]
  | cons t rest ih =>
    intro k a hlt
    simp only [List.length_cons] at hlt
    have hk1 : ¬ (k + 1 ≥ cfg.failureThreshold) := by omega
    have hstep : (execute cfg ⟨.closed, k, a⟩ t false).2 = ⟨.closed, k + 1, a⟩ := by
      rw [execute]
      simp [hk1]
    rw [runFails, List.foldl_cons]
    have hrest := ih (k + 1) a (by omega)
    rw [runFails] at hrest
    rw [hstep, hrest]
    simp only [List.length_cons]
    congr 1
    omega

end CircuitBreaker

open CircuitBreaker in
/-- C3 (spec-modelled: the `CircuitBreaker` implementation is not in
the repository snapshot, so `execute` is modelled from spec §4.4):
starting CLOSED, `failureThreshold` consecutive failing calls leave
the breaker OPEN — and strictly fewer leave it CLOSED; while OPEN
before `recoveryTimeout` has elapsed every `execute` fails fast with
the circuit-open error, not invoking the operation and not changing
the state; the first `execute` at or after the timeout runs the
operation in HALF_OPEN and transitions to CLOSED on success or back to
OPEN (recovery timer reset to `now`) on failure; any success while
CLOSED resets the consecutive-failure counter to zero. -/
theorem c3_circuit_breaker_state_machine (cfg : Config) :
    (∀ times : List Nat,
        times.length + 1 = cfg.failureThreshold →
        (runFails cfg init times).status = .closed
          ∧ (runFails cfg init times).failures = times.length)
    ∧ (∀ times : List Nat,
        times.length = cfg.failureThreshold → 0 < cfg.failureThreshold →
        (runFails cfg init times).status = .opened)
    ∧ (∀ (cb : CB) (now : Nat) (opSucceeds : Bool),
        cb.status = .opened → now < cb.openedAt + cfg.recoveryTimeout →
        execute cfg cb now opSucceeds = (none, cb))
    ∧ (∀ (cb : CB) (now : Nat),
        cb.status = .opened → cb.openedAt + cfg.recoveryTimeout ≤ now →
        execute cfg cb now true = (some .halfOpen, ⟨.closed, 0, cb.openedAt⟩)
          ∧ execute cfg cb now false =
            (some .halfOpen, ⟨.opened, cb.failures, now⟩))
    ∧ (∀ (cb : CB) (now : Nat),
        cb.status = .closed →
        execute cfg cb now true = (some .closed, ⟨.closed, 0, cb.openedAt⟩)) := by
  refine ⟨?_, ?_, ?_, ?_, ?_⟩
  · intro times hlen
    have hbelow := runFails_below_threshold cfg times 0 0 (by omega)
    rw [init, hbelow]
    exact ⟨rfl, by simp⟩
  · intro times hlen hpos
    have hne : times ≠ [] := by
      intro h0
      rw [h0] at hlen
      simp at hlen
      omega
    rcases List.eq_nil_or_concat times with h0 | ⟨ts, tl, hsplit⟩
    · exact absurd h0 hne
    subst hsplit
    rw [List.concat_eq_append, List.length_append, List.length_cons,
      List.length_nil] at hlen
    have hprefix := runFails_below_threshold cfg ts 0 0 (by omega)
    rw [runFails, List.concat_eq_append, List.foldl_append]
    rw [runFails] at hprefix
    rw [init, hprefix]
    simp only [List.foldl_cons, List.foldl_nil]
    have htrip : cfg.failureThreshold ≤ ts.length + 1 := by omega
    rw [execute]
    simp [htrip]
  · intro cb now opSucceeds hst hlt
    rw [execute, hst]
    simp only [if_pos hlt]
  · intro cb now hst hge
    have hnot : ¬ now < cb.openedAt + cfg.recoveryTimeout := by omega
    constructor
    · rw [execute, hst]
      simp [hnot]
    · rw [execute, hst]
      simp [hnot]
  · intro cb now hst
    rw [execute, hst]
    simp

/-- Concrete witness for C3 with `failureThreshold = 3`,
`recoveryTimeout = 50`: two failures leave the breaker CLOSED, three
open it; at time 40 (< 10 + 50) the open breaker fails fast; at time
60 the trial call runs half-open and closes the breaker on success;
a success in CLOSED resets the counter. -/
theorem c3_circuit_breaker_state_machine_witness :
    (([10, 20] : List Nat).length + 1 = 3
      ∧ (CircuitBreaker.runFails ⟨3, 50⟩ CircuitBreaker.init [10, 20]).status =
        .closed)
    ∧ (([10, 20, 30] : List Nat).length = 3 ∧ (0 : Nat) < 3
      ∧ (CircuitBreaker.runFails ⟨3, 50⟩ CircuitBreaker.init [10, 20, 30]).status =
        .opened)
    ∧ ((CircuitBreaker.CB.mk .opened 3 10).status = .opened ∧ (40 : Nat) < 10 + 50
      ∧ CircuitBreaker.execute ⟨3, 50⟩ ⟨.opened, 3, 10⟩ 40 true =
        (none, ⟨.opened, 3, 10⟩))
    ∧ ((10 : Nat) + 50 ≤ 60
      ∧ CircuitBreaker.execute ⟨3, 50⟩ ⟨.opened, 3, 10⟩ 60 true =
        (some .halfOpen, ⟨.closed, 0, 10⟩))
    ∧ CircuitBreaker.execute ⟨3, 50⟩ ⟨.closed, 2, 0⟩ 70 true =
        (some .closed, ⟨.closed, 0, 0⟩) := by
  have h := c3_circuit_breaker_state_machine ⟨3, 50⟩
  refine ⟨⟨by decide, (h.1 [10, 20] (by decide)).1⟩,
    ⟨by decide, by decide, h.2.1 [10, 20, 30] (by decide) (by decide)⟩,
    ⟨rfl, by decide, h.2.2.1 ⟨.opened, 3, 10⟩ 40 true rfl (by decide)⟩,
    ⟨by decide, (h.2.2.2.1 ⟨.opened, 3, 10⟩ 60 rfl (by decide)).1⟩,
    h.2.2.2.2 ⟨.closed, 2, 0⟩ 70 rfl⟩
